import Mathlib

/-!
Verification of the job-lifecycle core of a media-download service
(source: src/backend/main.py).

The Python module keeps two pieces of process-global mutable state:
a dict `downloads` mapping job ids to job records, and a set
`cancel_downloads` of ids requested for cancellation.  We embed the
dict as an association list with unique keys (dict update = map over
entries with matching key, dict delete = filter), the set as a list
with membership semantics, and each HTTP-level failure
(`HTTPException`) as an `Except` error value.  Strings are embedded
as Lean `String` / `List Char`; Python byte counts and timestamps as
`Nat`.  Informational-only job fields (client ip, mac address) are
omitted: no operation reads them.
-/

/-- Characters counted as whitespace by the Python `str.strip()` calls in
the file endpoints (ASCII whitespace; the inputs of interest are paths). -/
def isWs (c : Char) : Bool := c == ' ' || c == '\t' || c == '\n' || c == '\r'

/-- Drop trailing whitespace, the right half of Python `str.strip()`. -/
def dropTrailWs : List Char → List Char
  | [] => []
  | c :: t =>
    let r := dropTrailWs t
    if r.isEmpty && isWs c then [] else c :: r

/-- Python `str.strip()` on the character list of a string. -/
def pyStrip (l : List Char) : List Char := dropTrailWs (l.dropWhile isWs)

/-- Does the second list start with the first (pattern) list? -/
def listStartsWith : List Char → List Char → Bool
  | [], _ => true
  | _ :: _, [] => false
  | p :: ps, c :: cs => p == c && listStartsWith ps cs

/-- Python substring test `pat in s`, over character lists. -/
def containsSub (pat : List Char) : List Char → Bool
  | [] => listStartsWith pat []
  | c :: cs => listStartsWith pat (c :: cs) || containsSub pat cs

/-- ASCII lowercasing of one character, as Python `str.lower()` does on
the ASCII range (the only range relevant to the messages matched here). -/
def lowerChar (c : Char) : Char :=
  if 'A' ≤ c ∧ c ≤ 'Z' then Char.ofNat (c.toNat + 32) else c

/-- Character list of `s.lower()`. -/
def lowerStr (s : String) : List Char := s.data.map lowerChar

/-- Python `pat in s.lower()`. -/
def strContainsLower (s pat : String) : Bool := containsSub pat.data (lowerStr s)

/-- The job status strings used by the backend. -/
inductive Status where
  | queued
  | downloading
  | cancelling
  | completed
  | cancelled
  | error
deriving DecidableEq, Fintype

/-- One entry of the `downloads` dict (informational ip/mac fields omitted). -/
structure Job where
  status : Status
  url : String
  progress : Nat
  title : Option String
  error : Option String
  message : Option String
  created_at : Nat
  completed_at : Option Nat
deriving DecidableEq

/-- The two pieces of shared mutable state of the backend: the job dict
`downloads` and the cancellation set `cancel_downloads`. -/
structure ServerState where
  downloads : List (String × Job)
  cancel_downloads : List String
deriving DecidableEq

/-- The synchronous HTTP error outcomes of the endpoints: 404, a 400 on a
job in the wrong state, and a 400 on a malformed path. -/
inductive ApiError where
  | NotFound
  | InvalidState
  | InvalidInput
deriving DecidableEq

/-- Dict lookup `downloads[id]` / `id in downloads`. -/
def lookupJob : List (String × Job) → String → Option Job
  | [], _ => none
  | (k, v) :: t, id => if k = id then some v else lookupJob t id

/-- Dict update of the entry at `id` (Python `downloads[id][field] = v` or
`downloads[id].update(...)` on a present key). -/
def updateJob (l : List (String × Job)) (id : String) (f : Job → Job) : List (String × Job) :=
  l.map (fun p => if p.1 = id then (p.1, f p.2) else p)

/-- Dict deletion `del downloads[id]`. -/
def removeJob (l : List (String × Job)) (id : String) : List (String × Job) :=
  l.filter (fun p => p.1 != id)

/-- `cancel_downloads.discard(id)`. -/
def discardCancel (l : List String) (id : String) : List String :=
  l.filter (fun x => x != id)

/-- POST `/downloads/{id}/cancel` (source: `cancel_download`).  Unknown id is
404; a status outside `["downloading", "queued"]` is the 400
"Cannot cancel completed or error download"; otherwise the id is added to
the cancellation set and the status becomes `cancelling`. -/
def cancel_download (st : ServerState) (id : String) : Except ApiError ServerState :=
  match lookupJob st.downloads id with
  | none => Except.error ApiError.NotFound
  | some download =>
    if ¬ (download.status = Status.downloading ∨ download.status = Status.queued) then
      Except.error ApiError.InvalidState
    else
      Except.ok
        { downloads := updateJob st.downloads id (fun j => { j with status := Status.cancelling }),
          cancel_downloads := id :: st.cancel_downloads }

/-- DELETE `/downloads/{id}` (source: `clear_download`): delete the entry if
present, else 404; no check of the job's status. -/
def clear_download (st : ServerState) (id : String) : Except ApiError ServerState :=
  if (lookupJob st.downloads id).isSome then
    Except.ok { st with downloads := removeJob st.downloads id }
  else
    Except.error ApiError.NotFound

/-- A progress event passed by the engine to the progress hooks: the dict
`d` with its `status` tag, `downloaded_bytes`, and `total_bytes`.  An
absent (or `None`) `total_bytes` key is modelled as `none`. -/
structure ProgressEvent where
  pstatus : String
  downloaded_bytes : Nat
  total_bytes : Option Nat
deriving DecidableEq

/-- Source: `update_progress`.  Takes the currently stored progress and the
event, and returns the newly stored progress, or an exception when the code
evaluates `d['total_bytes'] > 0` on an event without a known total (a
`KeyError`/`TypeError` in Python, which propagates out of the hook).  The
stored value on the in-progress branch is
`int(downloaded_bytes / total_bytes * 100)`, i.e. the floor of the exact
ratio for the non-negative values that occur. -/
def update_progress (progress : Nat) (d : ProgressEvent) : Except String Nat :=
  if d.pstatus = "downloading" then
    match d.total_bytes with
    | none => Except.error "KeyError: total_bytes"
    | some total =>
      if total > 0 then Except.ok (d.downloaded_bytes * 100 / total)
      else Except.ok progress
  else if d.pstatus = "finished" then
    Except.ok 100
  else
    Except.ok progress

/-- Stored progress after one event: on an exception the stored field keeps
its previous value (the write never happened). -/
def stepProgress (progress : Nat) (d : ProgressEvent) : Nat :=
  match update_progress progress d with
  | Except.ok q => q
  | Except.error _ => progress

/-- The sequence of stored progress values along a run: the start value
followed by the value after each successive event. -/
def progressList (progress : Nat) : List ProgressEvent → List Nat
  | [] => [progress]
  | d :: ds => progress :: progressList (stepProgress progress d) ds

/-- The fixed set of characters replaced by the sanitizer,
Python literal `'<>:"/\\|?*'`. -/
def invalid_chars : List Char := ['<', '>', ':', '"', '/', '\\', '|', '?', '*']

/-- One `name.replace(char, '_')` pass. -/
def replaceChar (c : Char) (l : List Char) : List Char :=
  l.map (fun x => if x = c then '_' else x)

/-- Python `name.strip('. ')`: remove leading and trailing dots and spaces. -/
def stripDotSpace (l : List Char) : List Char :=
  (((l.dropWhile fun c => c == '.' || c == ' ').reverse.dropWhile
      fun c => c == '.' || c == ' ')).reverse

/-- Source: `sanitize_folder_name`.  Replace each invalid character by an
underscore, strip leading/trailing dots and spaces, truncate to 100. -/
def sanitize_folder_name (name : String) : String :=
  let replaced := invalid_chars.foldl (fun acc c => replaceChar c acc) name.data
  let stripped := stripDotSpace replaced
  String.mk (stripped.take 100)

/-- The decimal digit character of `d` (for `d < 10`). -/
def digitChar (d : Nat) : Char :=
  match d with
  | 0 => '0' | 1 => '1' | 2 => '2' | 3 => '3' | 4 => '4'
  | 5 => '5' | 6 => '6' | 7 => '7' | 8 => '8' | _ => '9'

/-- Decimal digit list with explicit fuel (structural recursion, so that
concrete values reduce in the kernel); correct whenever `n < fuel`. -/
def natDigitsAux : Nat → Nat → List Char
  | 0, _ => []
  | fuel + 1, n =>
    if n < 10 then [digitChar n]
    else natDigitsAux fuel (n / 10) ++ [digitChar (n % 10)]

/-- Decimal digit list of a natural number, most significant first:
the embedding of Python's decimal formatting of an `int`. -/
def natDigits (n : Nat) : List Char := natDigitsAux (n + 1) n

/-- Decimal string of a natural number (Python `f"{n}"`). -/
def natStr (n : Nat) : String := String.mk (natDigits n)

/-- The candidate name probed by the resolver: Python
`f"{folder_name} ({counter})"`. -/
def mkCandidate (folder_name : String) (counter : Nat) : String :=
  folder_name ++ " (" ++ natStr counter ++ ")"

/-- The `while True` probe loop of `get_unique_folder_name`, with explicit
fuel standing for the unbounded iteration of the source (`none` = fuel
exhausted; the caller passes enough fuel for that never to happen). -/
def unique_loop (occupied : List String) (folder_name : String) : Nat → Nat → Option String
  | 0, _ => none
  | fuel + 1, counter =>
    let new_name := mkCandidate folder_name counter
    if new_name ∈ occupied then unique_loop occupied folder_name fuel (counter + 1)
    else some new_name

/-- Source: `get_unique_folder_name`.  The directory contents of
`base_path` are embedded as the list `occupied` of entry names, and
`(base_path / name).exists()` as membership in it. -/
def get_unique_folder_name (occupied : List String) (folder_name : String) : Option String :=
  if folder_name ∈ occupied then
    unique_loop occupied folder_name (occupied.length + 1) 2
  else
    some folder_name

/-- One entry of the `entries` list of a playlist result: only the
`_type` field is inspected by the code (`e.get('_type')`). -/
structure PlaylistEntry where
  etype : Option String
deriving DecidableEq

/-- The result dict returned by `ydl.extract_info` on success. -/
structure EngineInfo where
  title : Option String
  entries : Option (List (Option PlaylistEntry))
deriving DecidableEq

/-- Outcome of the engine invocation inside the `try` block of
`perform_download`: a result dict, or a raised exception with its
message string (`str(e)`). -/
inductive EngineResult where
  | ok (info : EngineInfo)
  | exn (msg : String)
deriving DecidableEq

/-- The fields of the `ydl_opts` dict relevant to batch behaviour:
`ignoreerrors` (absent = `False` for single videos, set `True` for
playlists) and `playlist_items` (set to `"1"` for single videos). -/
structure YdlOpts where
  ignoreerrors : Bool
  playlist_items : Option String
deriving DecidableEq

/-- The `ydl_opts` configuration built by `perform_download` as a function
of the `download_list` flag. -/
def build_ydl_opts (download_list : Bool) : YdlOpts :=
  if download_list then { ignoreerrors := true, playlist_items := none }
  else { ignoreerrors := false, playlist_items := some "1" }

/-- Python `e is not None and not e.get('_type') == 'url'` on one entry. -/
def countedEntry (e : Option PlaylistEntry) : Bool :=
  match e with
  | none => false
  | some en => !(en.etype == some "url")

/-- The `status_msg` built for a completed playlist download. -/
def playlistMsg (successful_count failed_count : Nat) : String :=
  "Downloaded " ++ natStr successful_count ++ " videos" ++
    (if failed_count > 0 then
      " (" ++ natStr failed_count ++ " unavailable videos skipped)"
    else "")

/-- Source: `perform_download`, its effect on the registry and the
cancellation set.  Path planning and the engine call itself are abstracted:
the whole `try`-block outcome after the initial status write is the
parameter `res` (any exception raised inside the block, including by the
cancellation hook, is an `EngineResult.exn`), and `loggerFailed` is the
`failed` list accumulated by the playlist logger during the run.  `now`
stands for `datetime.now().timestamp()` at completion time.  The
`except` clause catches every exception: it records `cancelled` when the
message contains `"cancelled"` (lowercased) and `error` otherwise, and the
`finally` clause always discards the cancellation marker. -/
def perform_download (st : ServerState) (id : String) (download_list : Bool)
    (res : EngineResult) (loggerFailed : List String) (now : Nat) : ServerState :=
  let st1 : ServerState :=
    { st with downloads := updateJob st.downloads id (fun j => { j with status := Status.downloading }) }
  let st2 : ServerState :=
    match res with
    | EngineResult.ok info =>
      if download_list then
        let title := info.title.getD "Playlist"
        let entries := info.entries.getD []
        let successful_count := (entries.filter countedEntry).length
        let failed_count := loggerFailed.length
        let status_msg := playlistMsg successful_count failed_count
        { st1 with downloads := updateJob st1.downloads id (fun j =>
            { j with status := Status.completed, title := some title, progress := 100,
                     completed_at := some now, message := some status_msg }) }
      else
        let title := info.title.getD "Unknown"
        { st1 with downloads := updateJob st1.downloads id (fun j =>
            { j with status := Status.completed, title := some title, progress := 100,
                     completed_at := some now }) }
    | EngineResult.exn msg =>
      let is_cancelled := strContainsLower msg "cancelled"
      let stE : ServerState :=
        { st1 with downloads := updateJob st1.downloads id (fun j =>
            { j with status := (if is_cancelled then Status.cancelled else Status.error),
                     error := some msg, completed_at := some now }) }
      { stE with cancel_downloads := discardCancel stE.cancel_downloads id }
  { st2 with cancel_downloads := discardCancel st2.cancel_downloads id }

/-- The operations that write a job's `status` field: the worker's initial
write (`perform_download` line `downloads[download_id]["status"] =
"downloading"`), a cancellation request (`cancel_download`), and the
worker's terminal recording (success branch, or the `except` branch with
the raised message). -/
inductive WOp where
  | workerStart
  | cancelRequest
  | finish (errMsg : Option String)
deriving DecidableEq

/-- The terminal status recorded by the worker: `completed` on success,
else `cancelled`/`error` according to the exception message. -/
def finStatus (errMsg : Option String) : Status :=
  match errMsg with
  | none => Status.completed
  | some msg => if strContainsLower msg "cancelled" then Status.cancelled else Status.error

/-- Effect of one status-writing operation on a job's `status` field, read
off the source: the worker start writes `downloading` unconditionally; a
cancel request writes `cancelling` only from `queued`/`downloading` (and
otherwise raises without writing); the terminal recording writes the
terminal status unconditionally. -/
def stepStatus (s : Status) (op : WOp) : Status :=
  match op with
  | WOp.workerStart => Status.downloading
  | WOp.cancelRequest =>
    if s = Status.downloading ∨ s = Status.queued then Status.cancelling else s
  | WOp.finish errMsg => finStatus errMsg

/-- The sequence of statuses along a run: start status followed by the
status after each operation. -/
def statusList (s : Status) : List WOp → List Status
  | [] => [s]
  | op :: ops => s :: statusList (stepStatus s op) ops

/-- A well-formed life of one job: some cancel requests while queued, then
the worker start, then some cancel requests while the worker runs, then
the worker's single terminal recording. -/
def runTrace (pre post : Nat) (errMsg : Option String) : List WOp :=
  List.replicate pre WOp.cancelRequest ++ [WOp.workerStart] ++
    List.replicate post WOp.cancelRequest ++ [WOp.finish errMsg]

/-- Does the character list start with a slash (Python
`path.startswith("/")`)? -/
def startsSlash : List Char → Bool
  | [] => false
  | c :: _ => c == '/'

/-- The traversal guard shared by the path endpoints:
`".." in path or path.startswith("/")`. -/
def bad_path (l : List Char) : Bool :=
  containsSub ['.', '.'] l || startsSlash l

/-- Split a path on `'/'` into its raw components (as `pathlib` parses a
relative path joined under the download root; empty and `"."` components
are dropped later, during resolution). -/
def splitSlash : List Char → List (List Char)
  | [] => [[]]
  | c :: t =>
    match splitSlash t with
    | [] => [[]]
    | h :: r => if c = '/' then [] :: h :: r else (c :: h) :: r

/-- Resolution of a component list against a directory stack, the way the
operating system resolves the joined path when the filesystem entry is
accessed: `".."` pops a directory, empty and `"."` components are ignored,
anything else descends. -/
def resolveComps (stack : List (List Char)) : List (List Char) → List (List Char)
  | [] => stack
  | c :: cs =>
    if c = ['.', '.'] then resolveComps stack.dropLast cs
    else if c = [] ∨ c = ['.'] then resolveComps stack cs
    else resolveComps (stack ++ [c]) cs

/-- Python `file_path.lower().endswith('.mp3')`. -/
def endsWithMp3 (l : List Char) : Bool :=
  listStartsWith ['3', 'p', 'm', '.'] (l.map lowerChar).reverse

/-- GET `/files` (source: `list_downloaded_files`): reject a traversal
path with 400 before touching the filesystem, then resolve
`download_path / path` and answer 404 when the directory is absent.  The
filesystem is abstracted as the predicate `fs` on resolved component
lists; the returned value is the resolved path the handler reads. -/
def list_downloaded_files (root : List (List Char)) (fs : List (List Char) → Bool)
    (path : String) : Except ApiError (List (List Char)) :=
  if bad_path path.data then Except.error ApiError.InvalidInput
  else
    let comps := resolveComps root (splitSlash path.data)
    if fs comps then Except.ok comps else Except.error ApiError.NotFound

/-- DELETE `/files/{file_path}` (source: `delete_file`): strip the decoded
path, reject traversal with 400 before any filesystem access, 404 when
absent, 400 when not an `.mp3`; on success the resolved path is the file
unlinked. -/
def delete_file (root : List (List Char)) (fs : List (List Char) → Bool)
    (path : String) : Except ApiError (List (List Char)) :=
  let fp := pyStrip path.data
  if bad_path fp then Except.error ApiError.InvalidInput
  else
    let comps := resolveComps root (splitSlash fp)
    if !fs comps then Except.error ApiError.NotFound
    else if !endsWithMp3 fp then Except.error ApiError.InvalidInput
    else Except.ok comps

/-- GET `/play/{file_path}` (source: `play_file`): same validation sequence
as `delete_file`; on success the resolved path is streamed. -/
def play_file (root : List (List Char)) (fs : List (List Char) → Bool)
    (path : String) : Except ApiError (List (List Char)) :=
  let fp := pyStrip path.data
  if bad_path fp then Except.error ApiError.InvalidInput
  else
    let comps := resolveComps root (splitSlash fp)
    if !fs comps then Except.error ApiError.NotFound
    else if !endsWithMp3 fp then Except.error ApiError.InvalidInput
    else Except.ok comps

/-- GET `/download-file/{file_path}` (source: `download_file`): same
validation sequence as `play_file`; on success the resolved path is sent. -/
def download_file (root : List (List Char)) (fs : List (List Char) → Bool)
    (path : String) : Except ApiError (List (List Char)) :=
  let fp := pyStrip path.data
  if bad_path fp then Except.error ApiError.InvalidInput
  else
    let comps := resolveComps root (splitSlash fp)
    if !fs comps then Except.error ApiError.NotFound
    else if !endsWithMp3 fp then Except.error ApiError.InvalidInput
    else Except.ok comps

/-- A concrete empty filesystem, used to instantiate theorems. -/
def fsEmpty : List (List Char) → Bool := fun _ => false

deriving instance DecidableEq for Except

/-- The terminal statuses of the state machine. -/
def isTerminal (s : Status) : Bool :=
  s == Status.completed || s == Status.cancelled || s == Status.error

/-- Whether a job record carries a terminal status. -/
def jobTerminal (j : Job) : Bool := isTerminal j.status

/-- A sample job record used to instantiate theorems. -/
def exJob (s : Status) : Job :=
  { status := s, url := "https://youtu.be/abc", progress := 0, title := none,
    error := none, message := none, created_at := 5, completed_at := none }

/-- The transitions allowed by the specified state machine
(`queued → downloading → \x7bcancelling, completed, error\x7d` and
`cancelling → cancelled`), plus staying put. -/
def specOK (s t : Status) : Bool :=
  s == t ||
  match s, t with
  | Status.queued, Status.downloading => true
  | Status.downloading, Status.cancelling => true
  | Status.downloading, Status.completed => true
  | Status.downloading, Status.error => true
  | Status.cancelling, Status.cancelled => true
  | _, _ => false

/-- The transitions the code actually performs: the specified machine plus
a cancel request landing while still `queued` (`queued → cancelling`), the
worker start overwriting a pending cancel (`cancelling → downloading`), a
worker finishing despite a pending cancel (`cancelling → completed/error`),
and an exception message containing "cancelled" while no cancel was
requested (`downloading → cancelled`).  No transition targets `queued`
except the reflexive one. -/
def amendOK (s t : Status) : Bool :=
  specOK s t ||
  match s, t with
  | Status.queued, Status.cancelling => true
  | Status.cancelling, Status.downloading => true
  | Status.cancelling, Status.completed => true
  | Status.cancelling, Status.error => true
  | Status.downloading, Status.cancelled => true
  | _, _ => false

/-- Concrete state for the C10 witness: one job in non-terminal status
`downloading`, which the clear operation still removes. -/
def c10St : ServerState :=
  { downloads := [("dl_1", exJob Status.downloading)], cancel_downloads := [] }

/-- Concrete state for the C1 witness: one `downloading` job. -/
def c1WitSt : ServerState :=
  { downloads := [("dl_2", exJob Status.downloading)], cancel_downloads := [] }

/-- Concrete state for the C1 counterexample: one `queued` job. -/
def c1St0 : ServerState :=
  { downloads := [("dl_1", exJob Status.queued)], cancel_downloads := [] }

/-- The state after the first (successful) cancel request on `c1St0`. -/
def c1St1 : ServerState :=
  { downloads := [("dl_1", { exJob Status.queued with status := Status.cancelling })],
    cancel_downloads := ["dl_1"] }

/-- The in-progress event of a single-file run with total `T`. -/
def dlEvent (T d : Nat) : ProgressEvent :=
  { pstatus := "downloading", downloaded_bytes := d, total_bytes := some T }

/-- The final event of a run, tagged `finished`. -/
def finEvent : ProgressEvent :=
  { pstatus := "finished", downloaded_bytes := 0, total_bytes := none }

/-- Concrete state for the C3 witness. -/
def c3St : ServerState :=
  { downloads := [("dl_3", exJob Status.downloading)], cancel_downloads := ["dl_3"] }

/-- Concrete state for the C6 witness. -/
def c6St : ServerState :=
  { downloads := [("dl_9", exJob Status.downloading)], cancel_downloads := [] }

/-- C6 witness engine result: a 5-entry playlist, 2 entries unavailable
(reported as None by the engine under `ignoreerrors`). -/
def c6Info : EngineInfo :=
  { title := some "My Mix",
    entries := some
      [some { etype := none }, none, some { etype := none }, none, some { etype := none }] }

/-- Numeric value of a decimal digit character. -/
def digitVal (c : Char) : Nat := c.toNat - 48

/-- Numeric value of a decimal digit list. -/
def natVal (l : List Char) : Nat := l.foldl (fun a c => a * 10 + digitVal c) 0

-- Registry lemmas: dict update/delete against lookup.

theorem lookupJob_updateJob_self (l : List (String × Job)) (id : String) (f : Job → Job) :
    lookupJob (updateJob l id f) id = (lookupJob l id).map f := by
  induction l with
  | nil => rfl
  | cons p t ih =>
    obtain ⟨k, v⟩ := p
    simp only [updateJob, List.map_cons] at ih ⊢
    by_cases hk : k = id
    · subst hk
      rw [if_pos rfl]
      simp [lookupJob]
    · rw [if_neg hk]
      simp only [lookupJob, if_neg hk]
      exact ih

theorem lookupJob_removeJob_self (l : List (String × Job)) (id : String) :
    lookupJob (removeJob l id) id = none := by
  induction l with
  | nil => rfl
  | cons p t ih =>
    obtain ⟨k, v⟩ := p
    simp only [removeJob, List.filter_cons] at ih ⊢
    by_cases hk : k = id
    · subst hk
      simpa using ih
    · simp only [bne_iff_ne, ne_eq, hk, not_false_eq_true, if_pos]
      simp only [lookupJob, if_neg hk]
      exact ih

theorem lookupJob_removeJob_other (l : List (String × Job)) (id id' : String) (h : id' ≠ id) :
    lookupJob (removeJob l id) id' = lookupJob l id' := by
  induction l with
  | nil => rfl
  | cons p t ih =>
    obtain ⟨k, v⟩ := p
    simp only [removeJob, List.filter_cons] at ih ⊢
    by_cases hk : k = id
    · subst hk
      have hne : ¬ (k = id') := fun he => h he.symm
      simp only [lookupJob, if_neg hne]
      simpa using ih
    · simp only [bne_iff_ne, ne_eq, hk, not_false_eq_true, if_pos]
      by_cases hk' : k = id'
      · subst hk'
        simp [lookupJob]
      · simp only [lookupJob, if_neg hk']
        exact ih

theorem not_mem_discardCancel (l : List String) (id : String) :
    id ∉ discardCancel l id := by
  intro hmem
  have := List.mem_filter.1 hmem
  simp at this

-- Claim C10: clearing a download.

/-- C10: the clear operation (DELETE on a job id) removes any job present
in the registry regardless of its status — the hypothesis allows any job
record, with no constraint on `status` — leaving every other entry
untouched, and fails with `NotFound` exactly when the id is unknown. -/
theorem C10_clear_any_status (st : ServerState) (id : String) :
    (∀ job : Job, lookupJob st.downloads id = some job →
      clear_download st id = Except.ok { st with downloads := removeJob st.downloads id } ∧
      lookupJob (removeJob st.downloads id) id = none ∧
      ∀ id' : String, id' ≠ id →
        lookupJob (removeJob st.downloads id) id' = lookupJob st.downloads id') ∧
    (lookupJob st.downloads id = none → clear_download st id = Except.error ApiError.NotFound) := by
  constructor
  · intro job hjob
    refine ⟨?_, lookupJob_removeJob_self st.downloads id,
      fun id' h => lookupJob_removeJob_other st.downloads id id' h⟩
    unfold clear_download
    rw [hjob]
    rfl
  · intro hnone
    unfold clear_download
    rw [hnone]
    rfl

/-- C10 witness: instantiation of `C10_clear_any_status` on a registry
holding one `downloading` job. -/
theorem C10_clear_any_status_witness :
    clear_download c10St "dl_1" =
      Except.ok { c10St with downloads := removeJob c10St.downloads "dl_1" } :=
  ((C10_clear_any_status c10St "dl_1").1 (exJob Status.downloading) rfl).1

-- Claim C1: cancellation request semantics.

/-- C1 (amended): a cancel request on a job whose status is terminal OR
already `cancelling` fails with `InvalidState` (cancellation is not
idempotent); on a `queued` or `downloading` job it succeeds, sets the
status to `cancelling` and inserts the id into the cancellation set. -/
theorem C1_cancel_semantics (st : ServerState) (id : String) (job : Job)
    (hjob : lookupJob st.downloads id = some job) :
    ((job.status = Status.completed ∨ job.status = Status.cancelled ∨
        job.status = Status.error ∨ job.status = Status.cancelling) →
      cancel_download st id = Except.error ApiError.InvalidState) ∧
    ((job.status = Status.queued ∨ job.status = Status.downloading) →
      cancel_download st id =
        Except.ok
          { downloads := updateJob st.downloads id (fun j => { j with status := Status.cancelling }),
            cancel_downloads := id :: st.cancel_downloads } ∧
      lookupJob (updateJob st.downloads id
          (fun j => { j with status := Status.cancelling })) id =
        some { job with status := Status.cancelling } ∧
      id ∈ (id :: st.cancel_downloads)) := by
  constructor
  · intro hterm
    have hcond : ¬ (job.status = Status.downloading ∨ job.status = Status.queued) := by
      rcases hterm with h | h | h | h <;> rw [h] <;> decide
    simp only [cancel_download, hjob]
    rw [if_pos hcond]
  · intro hlive
    have hcond : ¬ ¬ (job.status = Status.downloading ∨ job.status = Status.queued) := by
      rcases hlive with h | h <;> rw [h] <;> decide
    refine ⟨?_, ?_, List.mem_cons_self id _⟩
    · simp only [cancel_download, hjob]
      rw [if_neg hcond]
    · rw [lookupJob_updateJob_self, hjob]
      rfl

/-- C1 witness: instantiation of `C1_cancel_semantics` on a `downloading`
job, which the cancel request moves to `cancelling` while inserting the id
into the cancellation set. -/
theorem C1_cancel_semantics_witness :
    cancel_download c1WitSt "dl_2" =
      Except.ok
        { downloads := [("dl_2", { exJob Status.downloading with status := Status.cancelling })],
          cancel_downloads := ["dl_2"] } :=
  ((C1_cancel_semantics c1WitSt "dl_2" (exJob Status.downloading) rfl).2 (Or.inr rfl)).1

/-- C1 counterexample: the first cancel request on a queued job succeeds
and leaves the job `cancelling`, but the duplicate cancel request on the
now-`cancelling` job is NOT a no-op success — it fails with
`InvalidState`, refuting the claim that cancelling twice succeeds both
times. -/
theorem C1_cancel_counterexample :
    cancel_download c1St0 "dl_1" = Except.ok c1St1 ∧
    cancel_download c1St1 "dl_1" = Except.error ApiError.InvalidState := by
  decide

-- Claim C7: the sanitizer.

set_option maxRecDepth 4000 in
/-- C7 (amended): the sanitizer replaces each character of the fixed
hostile set with an underscore, strips leading/trailing dots and spaces,
and truncates to AT MOST 100 code units; it is a pure function, so the
two concrete evaluations below are deterministic facts; a 200-character
name sanitizes to at most 100 characters, and to exactly 100 when
stripping removes nothing (for example 200 letters), but stripping can
yield fewer than 100. -/
theorem C7_sanitize_bounded :
    (∀ name : String, (sanitize_folder_name name).length ≤ 100) ∧
    sanitize_folder_name "My/Playlist:2024" = "My_Playlist_2024" ∧
    (sanitize_folder_name (String.mk (List.replicate 200 'a'))).length = 100 := by
  refine ⟨?_, by decide, by decide⟩
  intro name
  show (String.mk ((stripDotSpace
      (invalid_chars.foldl (fun acc c => replaceChar c acc) name.data)).take 100)).length ≤ 100
  show ((stripDotSpace
      (invalid_chars.foldl (fun acc c => replaceChar c acc) name.data)).take 100).length ≤ 100
  rw [List.length_take]
  exact Nat.min_le_left _ _

set_option maxRecDepth 4000 in
/-- C7 counterexample: a 200-character name made of dots has all its
characters stripped, so the result has length 0, not 100 — refuting
"any 200-character name is truncated to length 100". -/
theorem C7_sanitize_counterexample :
    (String.mk (List.replicate 200 '.')).length = 200 ∧
    (sanitize_folder_name (String.mk (List.replicate 200 '.'))).length = 0 ∧
    ¬ (sanitize_folder_name (String.mk (List.replicate 200 '.'))).length = 100 := by
  decide

-- Claim C5: progress events with zero or unknown total.

/-- C5 (amended): an in-progress event with a known zero total leaves the
stored progress unchanged (no division by zero occurs); an event with a
positive total stores floor(downloaded / total * 100); but an event whose
total is UNKNOWN (absent/None) makes the handler raise instead of leaving
progress unchanged. -/
theorem C5_zero_total (p db t : Nat) :
    update_progress p { pstatus := "downloading", downloaded_bytes := db, total_bytes := some 0 } =
      Except.ok p ∧
    (0 < t →
      update_progress p { pstatus := "downloading", downloaded_bytes := db, total_bytes := some t } =
        Except.ok (db * 100 / t)) ∧
    update_progress p { pstatus := "downloading", downloaded_bytes := db, total_bytes := none } =
      Except.error "KeyError: total_bytes" := by
  refine ⟨rfl, ?_, rfl⟩
  intro ht
  unfold update_progress
  simp [Nat.pos_iff_ne_zero.1 ht, ht]

/-- C5 witness: instantiation of `C5_zero_total` at a positive total. -/
theorem C5_zero_total_witness :
    update_progress 37 { pstatus := "downloading", downloaded_bytes := 1, total_bytes := some 2 } =
      Except.ok 50 :=
  (C5_zero_total 37 1 2).2.1 (by decide)

/-- C5 counterexample: on an event with unknown total the handler does not
return the unchanged progress — it raises (`d['total_bytes']` is accessed
unguarded), refuting "unknown or zero total leaves progress unchanged". -/
theorem C5_unknown_total_counterexample :
    ¬ (update_progress 37 { pstatus := "downloading", downloaded_bytes := 5, total_bytes := none } =
        Except.ok 37) := by
  decide

-- Claim C4: bounds and monotonicity of stored progress.

/-- C4 counterexample: the handler neither clamps nor enforces
monotonicity.  An event reporting more downloaded than total bytes stores
150, outside [0,100]; an event sequence with decreasing byte counts (as a
playlist run produces when the next item starts) makes the stored value
decrease from 50 to 0. -/
theorem C4_progress_counterexample :
    progressList 0 [{ pstatus := "downloading", downloaded_bytes := 3, total_bytes := some 2 }] =
      [0, 150] ∧
    ¬ (150 ≤ 100) ∧
    progressList 0
        [{ pstatus := "downloading", downloaded_bytes := 1, total_bytes := some 2 },
         { pstatus := "downloading", downloaded_bytes := 0, total_bytes := some 2 }] =
      [0, 50, 0] ∧
    ¬ List.Chain' (· ≤ ·)
        (progressList 0
          [{ pstatus := "downloading", downloaded_bytes := 1, total_bytes := some 2 },
           { pstatus := "downloading", downloaded_bytes := 0, total_bytes := some 2 }]) := by
  refine ⟨by decide, by decide, by decide, ?_⟩
  intro h
  have e : progressList 0
      [{ pstatus := "downloading", downloaded_bytes := 1, total_bytes := some 2 },
       { pstatus := "downloading", downloaded_bytes := 0, total_bytes := some 2 }] =
      [0, 50, 0] := by decide
  rw [e] at h
  have h2 := (List.chain'_cons.1 (List.chain'_cons.1 h).2).1
  omega

theorem stepProgress_dlEvent (T d p : Nat) (hT : 0 < T) :
    stepProgress p (dlEvent T d) = d * 100 / T := by
  unfold stepProgress update_progress dlEvent
  simp [Nat.pos_iff_ne_zero.1 hT, hT]

theorem div_bound_100 (T d : Nat) (hT : 0 < T) (hd : d ≤ T) : d * 100 / T ≤ 100 := by
  calc d * 100 / T ≤ T * 100 / T := Nat.div_le_div_right (Nat.mul_le_mul_right 100 hd)
    _ = 100 := Nat.mul_div_cancel_left 100 hT

theorem progress_run_aux (T : Nat) (hT : 0 < T) :
    ∀ (ds : List Nat) (p : Nat), p ≤ 100 →
      (∀ d ∈ ds, d ≤ T) → List.Chain' (· ≤ ·) ds →
      (∀ d0 ∈ ds.head?, p ≤ d0 * 100 / T) →
      List.Chain' (· ≤ ·) (progressList p (ds.map (dlEvent T) ++ [finEvent])) ∧
      ∀ x ∈ progressList p (ds.map (dlEvent T) ++ [finEvent]), x ≤ 100 := by
  intro ds
  induction ds with
  | nil =>
    intro p hp _ _ _
    have e : progressList p ([].map (dlEvent T) ++ [finEvent]) = [p, 100] := rfl
    rw [e]
    constructor
    · exact List.chain'_pair.2 hp
    · intro x hx
      rcases List.mem_cons.1 hx with h | h
      · omega
      · rcases List.mem_cons.1 h with h2 | h2
        · omega
        · simp at h2
  | cons d ds ih =>
    intro p hp hle hchain hhead
    have hd : d ≤ T := hle d (List.mem_cons_self d ds)
    have hstep : stepProgress p (dlEvent T d) = d * 100 / T := stepProgress_dlEvent T d p hT
    have hq : d * 100 / T ≤ 100 := div_bound_100 T d hT hd
    have hnext : ∀ d0 ∈ ds.head?, d * 100 / T ≤ d0 * 100 / T := by
      intro d0 hd0
      have hdd0 : d ≤ d0 := by
        cases ds with
        | nil => simp at hd0
        | cons d1 ds1 =>
          have he : d1 = d0 := by simpa using hd0
          subst he
          exact (List.chain'_cons.1 hchain).1
      exact Nat.div_le_div_right (Nat.mul_le_mul_right 100 hdd0)
    have hrec := ih (d * 100 / T) hq (fun x hx => hle x (List.mem_cons_of_mem d hx))
      hchain.tail hnext
    have hshape :
        progressList p ((d :: ds).map (dlEvent T) ++ [finEvent]) =
          p :: progressList (d * 100 / T) (ds.map (dlEvent T) ++ [finEvent]) := by
      simp only [List.map_cons, List.cons_append, progressList, hstep, List.append_eq]
    rw [hshape]
    have hheadp : p ≤ d * 100 / T := hhead d rfl
    constructor
    · rw [List.chain'_cons']
      refine ⟨?_, hrec.1⟩
      intro y hy
      have : (progressList (d * 100 / T) (ds.map (dlEvent T) ++ [finEvent])).head? =
          some (d * 100 / T) := by
        cases hdl : ds.map (dlEvent T) ++ [finEvent] with
        | nil => simp at hdl
        | cons e es => rfl
      rw [this] at hy
      simp only [Option.mem_def, Option.some.injEq] at hy
      omega
    · intro x hx
      rcases List.mem_cons.1 hx with h | h
      · omega
      · exact hrec.2 x h

/-- C4 (amended): the stored progress is kept in [0,100] and is
monotonically non-decreasing over a run only under the engine-side
assumptions of a single-file run — every in-progress event carries the
same known positive total `T`, reports at most `T` downloaded bytes, and
the reported byte counts are non-decreasing — and the code itself
enforces neither the bound nor monotonicity (see the counterexample). -/
theorem C4_progress_monotone (T : Nat) (ds : List Nat) (hT : 0 < T)
    (hle : ∀ d ∈ ds, d ≤ T) (hchain : List.Chain' (· ≤ ·) ds) :
    List.Chain' (· ≤ ·) (progressList 0 (ds.map (dlEvent T) ++ [finEvent])) ∧
    ∀ x ∈ progressList 0 (ds.map (dlEvent T) ++ [finEvent]), x ≤ 100 :=
  progress_run_aux T hT ds 0 (by omega) hle hchain (fun d0 _ => Nat.zero_le _)

/-- C4 witness: instantiation of `C4_progress_monotone` on a concrete
well-behaved run. -/
theorem C4_progress_monotone_witness :
    List.Chain' (· ≤ ·)
      (progressList 0 [dlEvent 10 3, dlEvent 10 7, dlEvent 10 10, finEvent]) :=
  (C4_progress_monotone 10 [3, 7, 10] (by decide) (by decide)
    (by simp [List.chain'_cons])).1

-- Claim C3: every worker exit path is terminal and cleans up.

/-- C3: for every run of the worker on a tracked job (any engine outcome
`res`, including any raised exception, which the embedding's `exn` case
covers — no exception escapes `perform_download`, which is total), the job
ends in a terminal status with `completed_at` recorded, and the job id is
not in the cancellation set afterwards, on every exit path — not only the
cancellation one. -/
theorem C3_worker_terminal (st : ServerState) (id : String) (dl : Bool)
    (res : EngineResult) (lf : List String) (now : Nat) (job : Job)
    (hjob : lookupJob st.downloads id = some job) :
    ((lookupJob (perform_download st id dl res lf now).downloads id).map jobTerminal =
      some true) ∧
    ((lookupJob (perform_download st id dl res lf now).downloads id).map Job.completed_at =
      some (some now)) ∧
    id ∉ (perform_download st id dl res lf now).cancel_downloads := by
  cases res with
  | ok info =>
    cases dl with
    | false =>
      refine ⟨?_, ?_, not_mem_discardCancel _ _⟩
      all_goals
        simp only [perform_download]
        rw [if_neg (by decide)]
        rw [lookupJob_updateJob_self, lookupJob_updateJob_self, hjob]
        rfl
    | true =>
      refine ⟨?_, ?_, not_mem_discardCancel _ _⟩
      all_goals
        simp only [perform_download]
        rw [if_pos (by trivial)]
        rw [lookupJob_updateJob_self, lookupJob_updateJob_self, hjob]
        rfl
  | exn msg =>
    refine ⟨?_, ?_, not_mem_discardCancel _ _⟩
    · simp only [perform_download]
      rw [lookupJob_updateJob_self, lookupJob_updateJob_self, hjob]
      cases hc : strContainsLower msg "cancelled" <;>
        simp [jobTerminal, isTerminal, hc]
    · simp only [perform_download]
      rw [lookupJob_updateJob_self, lookupJob_updateJob_self, hjob]
      cases hc : strContainsLower msg "cancelled" <;> simp [hc]

/-- C3 witness: instantiation of `C3_worker_terminal` on a failing run
(engine raises "boom"): even on this non-cancellation path the stale
cancellation marker is removed. -/
theorem C3_worker_terminal_witness :
    "dl_3" ∉ (perform_download c3St "dl_3" false (EngineResult.exn "boom") [] 9).cancel_downloads :=
  (C3_worker_terminal c3St "dl_3" false (EngineResult.exn "boom") [] 9
    (exJob Status.downloading) rfl).2.2

-- Claim C6: batch jobs with partially unavailable items.

/-- C6: a playlist run whose engine invocation returns (per-item failures
do not raise, because the options direct the engine to ignore item errors:
`ignoreerrors` is set exactly for playlist jobs) ends `completed`, never
`error`, and its message reports the number of counted entries and the
number of logged failures; with 3 counted of 5 entries and 2 failures the
message is exactly "Downloaded 3 videos (2 unavailable videos skipped)". -/
theorem C6_playlist_batch (st : ServerState) (id : String) (info : EngineInfo)
    (lf : List String) (now : Nat) (job : Job)
    (hjob : lookupJob st.downloads id = some job) :
    ((lookupJob (perform_download st id true (EngineResult.ok info) lf now).downloads id).map
        Job.status = some Status.completed) ∧
    ((lookupJob (perform_download st id true (EngineResult.ok info) lf now).downloads id).map
        Job.status ≠ some Status.error) ∧
    ((lookupJob (perform_download st id true (EngineResult.ok info) lf now).downloads id).map
        Job.message =
      some (some (playlistMsg ((info.entries.getD []).filter countedEntry).length lf.length))) ∧
    (build_ydl_opts true).ignoreerrors = true ∧
    playlistMsg 3 2 = "Downloaded 3 videos (2 unavailable videos skipped)" := by
  have hlook :
      lookupJob (perform_download st id true (EngineResult.ok info) lf now).downloads id =
        some { job with
          status := Status.completed, title := some (info.title.getD "Playlist"),
          progress := 100, completed_at := some now,
          message := some (playlistMsg ((info.entries.getD []).filter countedEntry).length
            lf.length) } := by
    simp only [perform_download]
    rw [if_pos (by trivial)]
    rw [lookupJob_updateJob_self, lookupJob_updateJob_self, hjob]
    rfl
  refine ⟨?_, ?_, ?_, rfl, by decide⟩
  · rw [hlook]; rfl
  · rw [hlook]; simp
  · rw [hlook]; rfl

/-- C6 witness: instantiation of `C6_playlist_batch` — with 2 of 5 items
unavailable the job's message reports 3 succeeded and 2 skipped. -/
theorem C6_playlist_batch_witness :
    (lookupJob (perform_download c6St "dl_9" true (EngineResult.ok c6Info)
        ["Video unavailable", "Video unavailable"] 7).downloads "dl_9").map Job.message =
      some (some "Downloaded 3 videos (2 unavailable videos skipped)") :=
  (C6_playlist_batch c6St "dl_9" c6Info ["Video unavailable", "Video unavailable"] 7
    (exJob Status.downloading) rfl).2.2.1

-- Claim C2: forward-only status transitions.

theorem statusList_head (s : Status) (ops : List WOp) :
    (statusList s ops).head? = some s := by
  cases ops <;> rfl

theorem amend_fin_downloading (msg : Option String) :
    amendOK Status.downloading (finStatus msg) = true := by
  cases msg with
  | none => decide
  | some m =>
    cases hc : strContainsLower m "cancelled" <;> simp [finStatus, hc] <;> decide

theorem amend_fin_cancelling (msg : Option String) :
    amendOK Status.cancelling (finStatus msg) = true := by
  cases msg with
  | none => decide
  | some m =>
    cases hc : strContainsLower m "cancelled" <;> simp [finStatus, hc] <;> decide

theorem chain_cancelling_fin (msg : Option String) :
    ∀ j : Nat, List.Chain' (fun a b => amendOK a b = true)
      (statusList Status.cancelling (List.replicate j WOp.cancelRequest ++ [WOp.finish msg]))
  | 0 => List.chain'_pair.2 (amend_fin_cancelling msg)
  | j + 1 => by
    have hrest := chain_cancelling_fin msg j
    rw [List.replicate_succ, List.cons_append]
    show List.Chain' _ (Status.cancelling ::
      statusList Status.cancelling (List.replicate j WOp.cancelRequest ++ [WOp.finish msg]))
    rw [List.chain'_cons']
    refine ⟨?_, hrest⟩
    intro y hy
    rw [statusList_head] at hy
    simp only [Option.mem_def, Option.some.injEq] at hy
    subst hy
    decide

theorem chain_downloading_fin (msg : Option String) (post : Nat) :
    List.Chain' (fun a b => amendOK a b = true)
      (statusList Status.downloading
        (List.replicate post WOp.cancelRequest ++ [WOp.finish msg])) := by
  cases post with
  | zero => exact List.chain'_pair.2 (amend_fin_downloading msg)
  | succ j =>
    rw [List.replicate_succ, List.cons_append]
    show List.Chain' _ (Status.downloading ::
      statusList Status.cancelling (List.replicate j WOp.cancelRequest ++ [WOp.finish msg]))
    rw [List.chain'_cons']
    refine ⟨?_, chain_cancelling_fin msg j⟩
    intro y hy
    rw [statusList_head] at hy
    simp only [Option.mem_def, Option.some.injEq] at hy
    subst hy
    decide

theorem chain_cancelling_ws (msg : Option String) (post : Nat) :
    ∀ k : Nat, List.Chain' (fun a b => amendOK a b = true)
      (statusList Status.cancelling
        (List.replicate k WOp.cancelRequest ++ WOp.workerStart ::
          (List.replicate post WOp.cancelRequest ++ [WOp.finish msg])))
  | 0 => by
    show List.Chain' _ (Status.cancelling ::
      statusList Status.downloading (List.replicate post WOp.cancelRequest ++ [WOp.finish msg]))
    rw [List.chain'_cons']
    refine ⟨?_, chain_downloading_fin msg post⟩
    intro y hy
    rw [statusList_head] at hy
    simp only [Option.mem_def, Option.some.injEq] at hy
    subst hy
    decide
  | k + 1 => by
    have hrest := chain_cancelling_ws msg post k
    rw [List.replicate_succ, List.cons_append]
    show List.Chain' _ (Status.cancelling ::
      statusList Status.cancelling
        (List.replicate k WOp.cancelRequest ++ WOp.workerStart ::
          (List.replicate post WOp.cancelRequest ++ [WOp.finish msg])))
    rw [List.chain'_cons']
    refine ⟨?_, hrest⟩
    intro y hy
    rw [statusList_head] at hy
    simp only [Option.mem_def, Option.some.injEq] at hy
    subst hy
    decide

/-- C2 (amended): over every well-formed life of a job (cancel requests
before and after the single worker start, then the worker's single
terminal recording with an arbitrary outcome), consecutive statuses follow
`amendOK`: the specified machine plus the extra code transitions
`queued → cancelling`, `cancelling → downloading`,
`cancelling → completed/error` and `downloading → cancelled`; and no
transition of `amendOK` ever targets `queued` from another status, so no
job re-enters `queued`. -/
theorem C2_status_forward (pre post : Nat) (errMsg : Option String) :
    List.Chain' (fun a b => amendOK a b = true)
      (statusList Status.queued (runTrace pre post errMsg)) ∧
    (∀ s t : Status, amendOK s t = true → t = Status.queued → s = Status.queued) := by
  refine ⟨?_, by decide⟩
  have hr : runTrace pre post errMsg =
      List.replicate pre WOp.cancelRequest ++ (WOp.workerStart ::
        (List.replicate post WOp.cancelRequest ++ [WOp.finish errMsg])) := by
    simp [runTrace]
  rw [hr]
  cases pre with
  | zero =>
    simp only [List.replicate_zero, List.nil_append]
    show List.Chain' _ (Status.queued ::
      statusList Status.downloading (List.replicate post WOp.cancelRequest ++ [WOp.finish errMsg]))
    rw [List.chain'_cons']
    refine ⟨?_, chain_downloading_fin errMsg post⟩
    intro y hy
    rw [statusList_head] at hy
    simp only [Option.mem_def, Option.some.injEq] at hy
    subst hy
    decide
  | succ k =>
    simp only [List.replicate_succ, List.cons_append]
    show List.Chain' _ (Status.queued ::
      statusList Status.cancelling
        (List.replicate k WOp.cancelRequest ++ WOp.workerStart ::
          (List.replicate post WOp.cancelRequest ++ [WOp.finish errMsg])))
    rw [List.chain'_cons']
    refine ⟨?_, chain_cancelling_ws errMsg post k⟩
    intro y hy
    rw [statusList_head] at hy
    simp only [Option.mem_def, Option.some.injEq] at hy
    subst hy
    decide

/-- C2 counterexample: a cancel request landing while the job is still
queued, followed by the worker start, produces the status sequence
queued → cancelling → downloading → cancelled; the pair
(cancelling, downloading) moves backward (it is not an edge of the
specified machine extended with staying put), refuting the claim that no
operation ever moves a job's status backward. -/
theorem C2_status_counterexample :
    statusList Status.queued (runTrace 1 0 (some "Download cancelled by user")) =
      [Status.queued, Status.cancelling, Status.downloading, Status.cancelled] ∧
    specOK Status.cancelling Status.downloading = false ∧
    ¬ List.Chain' (fun a b => specOK a b = true)
        (statusList Status.queued (runTrace 1 0 (some "Download cancelled by user"))) := by
  refine ⟨by decide, by decide, ?_⟩
  intro h
  have e : statusList Status.queued (runTrace 1 0 (some "Download cancelled by user")) =
      [Status.queued, Status.cancelling, Status.downloading, Status.cancelled] := by decide
  rw [e] at h
  have h2 := (List.chain'_cons.1 (List.chain'_cons.1 h).2).1
  exact absurd h2 (by decide)

-- Claim C8: the unique path resolver.

theorem natVal_aux_shift (l : List Char) :
    ∀ a : Nat, l.foldl (fun a c => a * 10 + digitVal c) a =
      a * 10 ^ l.length + l.foldl (fun a c => a * 10 + digitVal c) 0 := by
  induction l with
  | nil => intro a; simp
  | cons c t ih =>
    intro a
    simp only [List.foldl_cons, List.length_cons]
    rw [ih (a * 10 + digitVal c), ih (0 * 10 + digitVal c)]
    ring

theorem natVal_append_digit (l : List Char) (c : Char) :
    natVal (l ++ [c]) = natVal l * 10 + digitVal c := by
  simp [natVal, List.foldl_append]

theorem digitVal_digitChar (d : Nat) (h : d < 10) : digitVal (digitChar d) = d := by
  interval_cases d <;> decide

theorem natVal_natDigitsAux (fuel : Nat) :
    ∀ n : Nat, n < fuel → natVal (natDigitsAux fuel n) = n := by
  induction fuel with
  | zero => intro n h; omega
  | succ fuel ih =>
    intro n h
    by_cases h10 : n < 10
    · simp only [natDigitsAux, if_pos h10]
      show natVal [digitChar n] = n
      simp [natVal, digitVal_digitChar n h10]
    · simp only [natDigitsAux, if_neg h10]
      rw [natVal_append_digit]
      have hdiv : n / 10 < fuel := by
        have h1 : n / 10 < n := Nat.div_lt_self (by omega) (by omega)
        omega
      rw [ih (n / 10) hdiv, digitVal_digitChar (n % 10) (Nat.mod_lt n (by omega))]
      omega

theorem natVal_natDigits (n : Nat) : natVal (natDigits n) = n :=
  natVal_natDigitsAux (n + 1) n (Nat.lt_succ_self n)

theorem natStr_inj (a b : Nat) (h : natStr a = natStr b) : a = b := by
  have hd : natDigits a = natDigits b := congrArg String.data h
  have := natVal_natDigits a
  rw [hd, natVal_natDigits b] at this
  omega

theorem str_data_append (s t : String) : (s ++ t).data = s.data ++ t.data := rfl

theorem mkCandidate_inj (name : String) (a b : Nat)
    (h : mkCandidate name a = mkCandidate name b) : a = b := by
  have hd := congrArg String.data h
  simp only [mkCandidate, str_data_append, List.append_assoc] at hd
  have h1 := List.append_cancel_left hd
  have h2 := List.append_cancel_left h1
  have h3 : (natStr a).data = (natStr b).data := List.append_cancel_right h2
  exact natStr_inj a b (String.ext h3)

theorem exists_free_candidate (occupied : List String) (name : String) :
    ∃ i : Nat, i ≤ occupied.length ∧ mkCandidate name (2 + i) ∉ occupied := by
  by_contra hcon
  push_neg at hcon
  have hall : ∀ i : Nat, i ≤ occupied.length → mkCandidate name (2 + i) ∈ occupied :=
    fun i hi => hcon i hi
  have hinj : Function.Injective (fun i : Nat => mkCandidate name (2 + i)) := by
    intro a b hab
    have := mkCandidate_inj name (2 + a) (2 + b) hab
    omega
  have hsub : (Finset.range (occupied.length + 1)).image (fun i => mkCandidate name (2 + i)) ⊆
      occupied.toFinset := by
    intro x hx
    rw [Finset.mem_image] at hx
    obtain ⟨i, hi, rfl⟩ := hx
    rw [Finset.mem_range] at hi
    exact List.mem_toFinset.2 (hall i (by omega))
  have hcard := Finset.card_le_card hsub
  rw [Finset.card_image_of_injective _ hinj, Finset.card_range] at hcard
  have hlen := occupied.toFinset_card_le
  omega

theorem unique_loop_spec (occupied : List String) (name : String) :
    ∀ (fuel start : Nat),
      (∃ i : Nat, i < fuel ∧ mkCandidate name (start + i) ∉ occupied) →
      ∃ i : Nat, i < fuel ∧ mkCandidate name (start + i) ∉ occupied ∧
        (∀ j : Nat, j < i → mkCandidate name (start + j) ∈ occupied) ∧
        unique_loop occupied name fuel start = some (mkCandidate name (start + i)) := by
  intro fuel
  induction fuel with
  | zero =>
    intro start h
    obtain ⟨i, hi, _⟩ := h
    omega
  | succ fuel ih =>
    intro start h
    by_cases hmem : mkCandidate name start ∈ occupied
    · obtain ⟨i, hi, hfree⟩ := h
      have hipos : i ≠ 0 := by
        intro h0
        subst h0
        simp at hfree
        exact hfree hmem
      obtain ⟨i', rfl⟩ : ∃ i', i = i' + 1 := ⟨i - 1, by omega⟩
      have hex : ∃ i2 : Nat, i2 < fuel ∧ mkCandidate name (start + 1 + i2) ∉ occupied := by
        refine ⟨i', by omega, ?_⟩
        have : start + 1 + i' = start + (i' + 1) := by omega
        rw [this]
        exact hfree
      obtain ⟨i2, hi2, hfree2, hocc2, hloop2⟩ := ih (start + 1) hex
      refine ⟨i2 + 1, by omega, ?_, ?_, ?_⟩
      · have : start + (i2 + 1) = start + 1 + i2 := by omega
        rw [this]
        exact hfree2
      · intro j hj
        cases j with
        | zero => simpa using hmem
        | succ j' =>
          have : start + (j' + 1) = start + 1 + j' := by omega
          rw [this]
          exact hocc2 j' (by omega)
      · show unique_loop occupied name (fuel + 1) start = _
        simp only [unique_loop, if_pos hmem]
        rw [hloop2]
        have : start + 1 + i2 = start + (i2 + 1) := by omega
        rw [this]
    · refine ⟨0, by omega, by simpa using hmem, by omega, ?_⟩
      simp only [unique_loop, if_neg hmem]
      simp

/-- C8: the resolver returns the candidate unchanged when no entry with
that name exists; otherwise it returns the first of "name (2)",
"name (3)", … that does not exist (every smaller counter from 2 on is
occupied); and on the concrete directory states of the claim it yields
"Mix (2)" and "Mix (3)". -/
theorem C8_unique_folder (occupied : List String) (name : String) :
    (name ∉ occupied → get_unique_folder_name occupied name = some name) ∧
    (name ∈ occupied →
      ∃ k : Nat, 2 ≤ k ∧ mkCandidate name k ∉ occupied ∧
        (∀ j : Nat, 2 ≤ j → j < k → mkCandidate name j ∈ occupied) ∧
        get_unique_folder_name occupied name = some (mkCandidate name k)) ∧
    get_unique_folder_name ["Mix"] "Mix" = some "Mix (2)" ∧
    get_unique_folder_name ["Mix", "Mix (2)"] "Mix" = some "Mix (3)" := by
  refine ⟨?_, ?_, by decide, by decide⟩
  · intro hnm
    simp only [get_unique_folder_name, if_neg hnm]
  · intro hm
    obtain ⟨i0, hi0, hfree0⟩ := exists_free_candidate occupied name
    obtain ⟨i, hilt, hfree, hocc, hloop⟩ :=
      unique_loop_spec occupied name (occupied.length + 1) 2 ⟨i0, by omega, hfree0⟩
    refine ⟨2 + i, by omega, hfree, ?_, ?_⟩
    · intro j h2j hjk
      have : j = 2 + (j - 2) := by omega
      rw [this]
      exact hocc (j - 2) (by omega)
    · simp only [get_unique_folder_name, if_pos hm]
      exact hloop

/-- C8 witness: instantiation of `C8_unique_folder` on an empty directory,
discharging the no-collision hypothesis. -/
theorem C8_unique_folder_witness :
    get_unique_folder_name [] "Solo" = some "Solo" :=
  (C8_unique_folder [] "Solo").1 (by decide)

-- Claim C9: path traversal rejection and containment.

theorem listStartsWith_iff (pat : List Char) :
    ∀ l : List Char, listStartsWith pat l = true ↔ pat <+: l := by
  induction pat with
  | nil =>
    intro l
    simp [listStartsWith, List.nil_prefix]
  | cons p ps ih =>
    intro l
    cases l with
    | nil => simp [listStartsWith]
    | cons c cs =>
      rw [listStartsWith, Bool.and_eq_true, beq_iff_eq, List.cons_prefix_cons, ih cs]

theorem containsSub_iff (pat : List Char) :
    ∀ l : List Char, containsSub pat l = true ↔ pat <:+: l := by
  intro l
  induction l with
  | nil =>
    rw [containsSub, listStartsWith_iff]
    constructor
    · intro h
      exact h.isInfix
    · intro h
      rw [List.infix_nil] at h
      subst h
      exact List.nil_prefix
  | cons c cs ih =>
    rw [containsSub, Bool.or_eq_true, listStartsWith_iff, ih, List.infix_cons_iff]

theorem splitSlash_spec :
    ∀ l : List Char, ∃ h r, splitSlash l = h :: r ∧ h <+: l ∧ ∀ comp ∈ r, comp <:+: l := by
  intro l
  induction l with
  | nil => exact ⟨[], [], rfl, List.nil_prefix, by simp⟩
  | cons c t ih =>
    obtain ⟨h, r, hsp, hp, hr⟩ := ih
    have e : splitSlash (c :: t) = if c = '/' then [] :: h :: r else (c :: h) :: r := by
      rw [splitSlash, hsp]
    by_cases hc : c = '/'
    · refine ⟨[], h :: r, ?_, List.nil_prefix, ?_⟩
      · rw [e, if_pos hc]
      · intro comp hcomp
        rcases List.mem_cons.1 hcomp with he | hm
        · subst he
          exact hp.isInfix.trans (List.infix_cons (List.infix_refl t))
        · exact (hr comp hm).trans (List.infix_cons (List.infix_refl t))
    · refine ⟨c :: h, r, ?_, ?_, ?_⟩
      · rw [e, if_neg hc]
      · exact List.cons_prefix_cons.2 ⟨rfl, hp⟩
      · intro comp hcomp
        exact (hr comp hcomp).trans (List.infix_cons (List.infix_refl t))

theorem splitSlash_within (l : List Char) (comp : List Char) (h : comp ∈ splitSlash l) :
    comp <:+: l := by
  obtain ⟨h0, r, hsp, hp, hr⟩ := splitSlash_spec l
  rw [hsp] at h
  rcases List.mem_cons.1 h with he | hm
  · subst he
    exact hp.isInfix
  · exact hr comp hm

theorem dot_not_ws (c : Char) (h : isWs c = true) : ('.' == c) = false := by
  simp only [isWs, Bool.or_eq_true, beq_iff_eq] at h
  rcases h with ((h | h) | h) | h <;> subst h <;> decide

theorem containsSub_dropWhile (l : List Char)
    (h : containsSub ['.', '.'] l = true) :
    containsSub ['.', '.'] (l.dropWhile isWs) = true := by
  induction l with
  | nil => simp [containsSub, listStartsWith] at h
  | cons c t ih =>
    rw [List.dropWhile_cons]
    by_cases hws : isWs c = true
    · rw [if_pos hws]
      apply ih
      rw [containsSub, Bool.or_eq_true] at h
      rcases h with hsw | hcs
      · rw [listStartsWith, dot_not_ws c hws, Bool.false_and] at hsw
        cases hsw
      · exact hcs
    · rw [if_neg hws]
      exact h

theorem startsSlash_dropWhile (l : List Char) (h : startsSlash l = true) :
    startsSlash (l.dropWhile isWs) = true := by
  cases l with
  | nil => cases h
  | cons c t =>
    have hc : c = '/' := by simpa [startsSlash] using h
    subst hc
    rw [List.dropWhile_cons, show isWs '/' = false from rfl, if_neg (by simp)]
    rfl

theorem startsWith_dotdot (l : List Char) (h : listStartsWith ['.', '.'] l = true) :
    ∃ t2, l = '.' :: '.' :: t2 := by
  cases l with
  | nil => simp [listStartsWith] at h
  | cons c t =>
    cases t with
    | nil => simp [listStartsWith] at h
    | cons c2 t2 =>
      simp only [listStartsWith, Bool.and_eq_true, beq_iff_eq] at h
      exact ⟨t2, by rw [← h.1, ← h.2.1]⟩

theorem containsSub_dropTrailWs (l : List Char)
    (h : containsSub ['.', '.'] l = true) :
    containsSub ['.', '.'] (dropTrailWs l) = true := by
  induction l with
  | nil => simp [containsSub, listStartsWith] at h
  | cons c t ih =>
    rw [containsSub, Bool.or_eq_true] at h
    rcases h with hsw | hcs
    · obtain ⟨t2, he⟩ := startsWith_dotdot (c :: t) hsw
      injection he with he1 he2
      subst he1
      subst he2
      show containsSub ['.', '.']
        (if (dropTrailWs ('.' :: t2)).isEmpty && isWs '.' then []
          else '.' :: dropTrailWs ('.' :: t2)) = true
      rw [show isWs '.' = false from rfl, Bool.and_false, if_neg (by simp)]
      show containsSub ['.', '.']
        ('.' :: (if (dropTrailWs t2).isEmpty && isWs '.' then [] else '.' :: dropTrailWs t2)) = true
      rw [show isWs '.' = false from rfl, Bool.and_false, if_neg (by simp)]
      simp [containsSub, listStartsWith]
    · have hr := ih hcs
      have hne : (dropTrailWs t).isEmpty = false := by
        cases he : dropTrailWs t with
        | nil =>
          rw [he] at hr
          simp [containsSub, listStartsWith] at hr
        | cons x xs => rfl
      show containsSub ['.', '.']
        (if (dropTrailWs t).isEmpty && isWs c then [] else c :: dropTrailWs t) = true
      rw [hne, Bool.false_and, if_neg (by simp)]
      rw [containsSub, hr, Bool.or_true]

theorem startsSlash_dropTrailWs (l : List Char) (h : startsSlash l = true) :
    startsSlash (dropTrailWs l) = true := by
  cases l with
  | nil => cases h
  | cons c t =>
    have hc : c = '/' := by simpa [startsSlash] using h
    subst hc
    show startsSlash
      (if (dropTrailWs t).isEmpty && isWs '/' then [] else '/' :: dropTrailWs t) = true
    rw [show isWs '/' = false from rfl, Bool.and_false, if_neg (by simp)]
    rfl

theorem bad_path_pyStrip (l : List Char) (h : bad_path l = true) :
    bad_path (pyStrip l) = true := by
  rw [bad_path, Bool.or_eq_true] at h
  rw [bad_path, Bool.or_eq_true, pyStrip]
  rcases h with h | h
  · exact Or.inl (containsSub_dropTrailWs _ (containsSub_dropWhile _ h))
  · exact Or.inr (startsSlash_dropTrailWs _ (startsSlash_dropWhile _ h))

theorem resolveComps_no_dotdot :
    ∀ (comps stack : List (List Char)),
      (∀ c ∈ comps, c ≠ ['.', '.']) →
      resolveComps stack comps =
        stack ++ comps.filter (fun c => !(c == [] || c == ['.'])) := by
  intro comps
  induction comps with
  | nil =>
    intro stack _
    simp [resolveComps]
  | cons c cs ih =>
    intro stack h
    have hc : ¬ (c = ['.', '.']) := h c (List.mem_cons_self c cs)
    rw [resolveComps, if_neg hc]
    by_cases hce : c = [] ∨ c = ['.']
    · rw [if_pos hce, ih stack (fun x hx => h x (List.mem_cons_of_mem c hx))]
      have hfc : (!(c == [] || c == ['.'])) = false := by
        rcases hce with he | he <;> subst he <;> rfl
      rw [List.filter_cons, hfc]
      simp
    · rw [if_neg hce, ih (stack ++ [c]) (fun x hx => h x (List.mem_cons_of_mem c hx))]
      have hfc : (!(c == [] || c == ['.'])) = true := by
        simp only [Bool.not_eq_true', Bool.or_eq_false_iff, beq_eq_false_iff_ne, ne_eq]
        constructor
        · intro he
          exact hce (Or.inl he)
        · intro he
          exact hce (Or.inr he)
      rw [List.filter_cons, hfc]
      simp [List.append_assoc]

theorem resolve_under_root (root : List (List Char)) (l : List Char)
    (hno : containsSub ['.', '.'] l = false) :
    root <+: resolveComps root (splitSlash l) := by
  have hall : ∀ c ∈ splitSlash l, c ≠ ['.', '.'] := by
    intro c hc heq
    subst heq
    have hin := (containsSub_iff ['.', '.'] l).2 (splitSlash_within l _ hc)
    rw [hin] at hno
    cases hno
  rw [resolveComps_no_dotdot _ root hall]
  exact List.prefix_append _ _

/-- C9: for each of the four file-serving operations, a path that
contains ".." or begins with "/" is rejected with the 400 `InvalidInput`
before any filesystem access (the guard is the first step of each
handler, ahead of the existence checks), and every path an operation
accepts resolves to a component list that keeps the download root as a
prefix — it stays under the download root. -/
theorem C9_path_traversal (root : List (List Char)) (fs : List (List Char) → Bool)
    (path : String) :
    (bad_path path.data = true →
      list_downloaded_files root fs path = Except.error ApiError.InvalidInput ∧
      delete_file root fs path = Except.error ApiError.InvalidInput ∧
      play_file root fs path = Except.error ApiError.InvalidInput ∧
      download_file root fs path = Except.error ApiError.InvalidInput) ∧
    (∀ comps, list_downloaded_files root fs path = Except.ok comps → root <+: comps) ∧
    (∀ comps, delete_file root fs path = Except.ok comps → root <+: comps) ∧
    (∀ comps, play_file root fs path = Except.ok comps → root <+: comps) ∧
    (∀ comps, download_file root fs path = Except.ok comps → root <+: comps) := by
  refine ⟨?_, ?_, ?_, ?_, ?_⟩
  · intro hbad
    have hbad2 : bad_path (pyStrip path.data) = true := bad_path_pyStrip path.data hbad
    refine ⟨?_, ?_, ?_, ?_⟩
    · simp only [list_downloaded_files, if_pos hbad]
    · simp only [delete_file, if_pos hbad2]
    · simp only [play_file, if_pos hbad2]
    · simp only [download_file, if_pos hbad2]
  · intro comps hok
    simp only [list_downloaded_files] at hok
    split at hok
    · cases hok
    · split at hok
      · rename_i hb hf
        injection hok with hok
        rw [← hok]
        apply resolve_under_root
        rw [bad_path, Bool.or_eq_true, not_or] at hb
        simpa using hb.1
      · cases hok
  · intro comps hok
    simp only [delete_file] at hok
    split at hok
    · cases hok
    · split at hok
      · cases hok
      · split at hok
        · cases hok
        · rename_i hb hf hm
          injection hok with hok
          rw [← hok]
          apply resolve_under_root
          rw [bad_path, Bool.or_eq_true, not_or] at hb
          simpa using hb.1
  · intro comps hok
    simp only [play_file] at hok
    split at hok
    · cases hok
    · split at hok
      · cases hok
      · split at hok
        · cases hok
        · rename_i hb hf hm
          injection hok with hok
          rw [← hok]
          apply resolve_under_root
          rw [bad_path, Bool.or_eq_true, not_or] at hb
          simpa using hb.1
  · intro comps hok
    simp only [download_file] at hok
    split at hok
    · cases hok
    · split at hok
      · cases hok
      · split at hok
        · cases hok
        · rename_i hb hf hm
          injection hok with hok
          rw [← hok]
          apply resolve_under_root
          rw [bad_path, Bool.or_eq_true, not_or] at hb
          simpa using hb.1

/-- C9 witness: instantiation of `C9_path_traversal` on the traversal
attempt "../etc/passwd": all four operations reject it with 400. -/
theorem C9_path_traversal_witness :
    list_downloaded_files [['d']] fsEmpty "../etc/passwd" =
        Except.error ApiError.InvalidInput ∧
      delete_file [['d']] fsEmpty "../etc/passwd" = Except.error ApiError.InvalidInput ∧
      play_file [['d']] fsEmpty "../etc/passwd" = Except.error ApiError.InvalidInput ∧
      download_file [['d']] fsEmpty "../etc/passwd" = Except.error ApiError.InvalidInput :=
  (C9_path_traversal [['d']] fsEmpty "../etc/passwd").1 (by decide)


/-- C2 witness: instantiation of `C2_status_forward` on a run with one
cancel request before the worker start and one after it. -/
theorem C2_status_forward_witness :
    List.Chain' (fun a b => amendOK a b = true)
      (statusList Status.queued (runTrace 1 1 (some "network error"))) :=
  (C2_status_forward 1 1 (some "network error")).1

/-- C7 witness: instantiation of the universally quantified length bound
of `C7_sanitize_bounded` at a concrete name. -/
theorem C7_sanitize_bounded_witness :
    (sanitize_folder_name "a<b>c").length ≤ 100 :=
  C7_sanitize_bounded.1 "a<b>c"

-- Concrete sanity checks of the embedded definitions.

example : pyStrip "  a b ".data = ['a', ' ', 'b'] := by decide
example : containsSub ['.', '.'] "a/../b".data = true := by decide
example : containsSub ['.', '.'] "a/b.mp3".data = false := by decide
example : strContainsLower "Download CANCELLED by user" "cancelled" = true := by decide

example : sanitize_folder_name "My/Playlist:2024" = "My_Playlist_2024" := by decide
example : sanitize_folder_name " .hello. " = "hello" := by decide

example : natStr 0 = "0" := by decide
example : natStr 2024 = "2024" := by decide

example : get_unique_folder_name ["Mix"] "Mix" = some "Mix (2)" := by decide
example : get_unique_folder_name ["Mix", "Mix (2)"] "Mix" = some "Mix (3)" := by decide
example : get_unique_folder_name [] "Mix" = some "Mix" := by decide

example :
    statusList Status.queued (runTrace 1 0 (some "Download cancelled by user")) =
      [Status.queued, Status.cancelling, Status.downloading, Status.cancelled] := by decide
example :
    statusList Status.queued (runTrace 0 1 none) =
      [Status.queued, Status.downloading, Status.cancelling, Status.completed] := by decide

example : list_downloaded_files [['d']] fsEmpty "../etc" = Except.error ApiError.InvalidInput := by
  decide
example : delete_file [['d']] fsEmpty " /etc/x.mp3" = Except.error ApiError.InvalidInput := by
  decide
example : splitSlash "a/b".data = [['a'], ['b']] := by decide
example : resolveComps [['d']] (splitSlash "a/b".data) = [['d'], ['a'], ['b']] := by decide
